import Mathlib

/-!
Verification of the CBForest C façade (`c4Database.cc`, `c4ExpiryEnumerator.c`)
against its natural-language specification.

The C sources are shallowly embedded: each public operation becomes a pure
Lean function over explicit state (key stores are association lists of byte
keys, machine pointers become `Option`, thrown C++ exceptions become
`Except`/out-parameters, `assert` failures become `Option.none`).
Engine-side code that is not part of the repository snapshot
(`VersionedDocument::insertHistory`, the Collatable codec, `Transaction`)
is modelled from the specification text, as marked in doc comments.
-/

set_option autoImplicit false

/-! ## Errors (`recordError` / `recordHTTPError` / `catchError` machinery) -/

/-- The three error domains used by the façade (`C4Error::HTTPDomain`,
`C4Error::ForestDBDomain`, `C4Error::C4Domain`). -/
inductive C4ErrorDomain where
  | http
  | forestdb
  | c4
deriving DecidableEq

/-- A structured error as stored into the caller-provided error slot. -/
structure C4Error where
  domain : C4ErrorDomain
  code : Int
deriving DecidableEq

/-- A C++ exception escaping the engine: either a cbforest `error` carrying a
ForestDB status, or an unknown exception. -/
inductive CblErr where
  | forest (status : Int)
  | unknown
deriving DecidableEq

/-- What the `catchError` macro records for a caught exception:
`recordError` for cbforest errors, `recordUnknownException` (C4Domain, 2)
otherwise. -/
def mapErr : CblErr → C4Error
  | CblErr.forest s => ⟨C4ErrorDomain.forestdb, s⟩
  | CblErr.unknown => ⟨C4ErrorDomain.c4, 2⟩

/-! ## Nested transactions (`struct c4Database`) -/

/-- The transaction-related state of a `c4Database`: `_transactionLevel` and
whether `_transaction` is non-NULL. -/
structure TxnState where
  level : Nat
  txnAlive : Bool
deriving DecidableEq

/-- The fate of a destroyed `Transaction` object (`delete t` commits unless
`t->abort()` was called first). -/
inductive TxnEvent where
  | committed
  | aborted
deriving DecidableEq

/-- `c4Database::beginTransaction`: increments the level; only when the new
level is 1 is a `Transaction` instantiated. -/
def beginTransaction (s : TxnState) : TxnState :=
  if s.level + 1 = 1 then { level := 1, txnAlive := true }
  else { s with level := s.level + 1 }

/-- `c4Database::endTransaction(commit)`: asserts `_transactionLevel > 0`
(`none` models the assertion failure aborting the process); decrements the
level; only when the level returns to 0 is the `Transaction` destroyed, and
it is aborted exactly when this outermost call passed `commit = false`.
A nested call updates no other state: the `commit` flag of a nested call is
discarded. -/
def endTransaction (s : TxnState) (commit : Bool) : Option (TxnState × Option TxnEvent) :=
  if s.level = 0 then none
  else if s.level - 1 = 0 then
    some ({ level := 0, txnAlive := false },
          some (if commit then TxnEvent.committed else TxnEvent.aborted))
  else some ({ s with level := s.level - 1 }, none)

/-- `c4Database::~c4Database`: `assert(_transactionLevel == 0)`; `none`
models the assertion failure. -/
def c4DatabaseDestroy (s : TxnState) : Option Unit :=
  if s.level = 0 then some () else none

/-- A call to `beginTransaction` or `endTransaction(commit)`. -/
inductive TxnOp where
  | beginT
  | endT (commit : Bool)
deriving DecidableEq

/-- Run a sequence of begin/end calls, collecting the fate of every
`Transaction` object destroyed along the way; `none` if any call fails its
assertion. -/
def runTxnOps : TxnState → List TxnOp → Option (TxnState × List TxnEvent)
  | s, [] => some (s, [])
  | s, TxnOp.beginT :: ops => runTxnOps (beginTransaction s) ops
  | s, TxnOp.endT c :: ops =>
    match endTransaction s c with
    | none => none
    | some (s2, ev) =>
      match runTxnOps s2 ops with
      | none => none
      | some (s3, evs) => some (s3, ev.toList ++ evs)

/-! ## Raw document store (`c4raw_put`) -/

/-- A raw key store: list of `(key, meta, body)` records. -/
abbrev RawStore := List (List Nat × List Nat × List Nat)

/-- `KeyStoreWriter::set`: upsert a `(key, meta, body)` record. -/
def kvSet (store : RawStore) (key meta body : List Nat) : RawStore :=
  (key, meta, body) :: store.filter (fun e => !(decide (e.1 = key)))

/-- `KeyStoreWriter::del`: remove any record under `key`. -/
def kvDel (store : RawStore) (key : List Nat) : RawStore :=
  store.filter (fun e => !(decide (e.1 = key)))

/-- `c4raw_put`, entered outside any transaction.  Mirrors the source: begin
the transaction; a non-null `body.buf` or `meta.buf` means `set`, otherwise
`del`; end the transaction with commit; on a thrown write error
(`failWrite`) the catch runs and the frame is ended with `commit = false`.
Every exit path of the source executes `return false`; the result records
`(returned value, resulting store, fate of the transaction)`. -/
def c4raw_put (store : RawStore) (key : List Nat) (meta body : Option (List Nat))
    (failWrite : Bool) : Bool × RawStore × Option TxnEvent :=
  if failWrite then (false, store, some TxnEvent.aborted)
  else if body.isSome || meta.isSome then
    (false, kvSet store key (meta.getD []) (body.getD []), some TxnEvent.committed)
  else (false, kvDel store key, some TxnEvent.committed)

/-! ## Engine configuration (`c4db_open`) -/

/-- ForestDB open flags selected by `c4db_open`. -/
inductive FdbOpenFlag where
  | rdonly
  | create
deriving DecidableEq

/-- The fields of `Database::defaultConfig()` that `c4db_open` overrides. -/
structure DbConfig where
  flags : FdbOpenFlag
  buffercacheSize : Nat
  walThreshold : Nat
  walFlushBeforeCommit : Bool
  seqtreeOpt : Bool
  compressDocumentBody : Bool
  compactorSleepDuration : Nat
deriving DecidableEq

/-- The configuration `c4db_open` builds: `kDBBufferCacheSize = 8*1024*1024`,
`kDBWALThreshold = 1024`, `kAutoCompactInterval = (uint64_t)(5*60.0)`,
plus the three boolean options and the read-only/create flag choice. -/
def c4db_open_config (readOnly : Bool) : DbConfig where
  flags := if readOnly then FdbOpenFlag.rdonly else FdbOpenFlag.create
  buffercacheSize := 8 * 1024 * 1024
  walThreshold := 1024
  walFlushBeforeCommit := true
  seqtreeOpt := true
  compressDocumentBody := true
  compactorSleepDuration := 300

/-- `c4db_open`: builds the configuration, attempts `new Database(path,
config)` (abstracted as `engineOpen`), returns the handle on success and
`NULL` with the error recorded on a caught failure. -/
def c4db_open (readOnly : Bool) (engineOpen : DbConfig → Except CblErr Unit) :
    Option Unit × Option C4Error :=
  match engineOpen (c4db_open_config readOnly) with
  | Except.ok d => (some d, none)
  | Except.error e => (none, some (mapErr e))

/-! ## Document body loading (`C4DocumentInternal::loadBody`) -/

/-- `C4DocumentInternal::loadBody`.  Arguments: whether `_selectedRev` is
non-NULL; the current `selectedRev.body` (non-null buf means inlined or
already loaded); the outcome of `_selectedRev->readBody()` (`Except.ok none`
models a read that returns an absent body without throwing, i.e. a body
compacted away).  Result: `(returned value, recorded error, whether the
store was read)`. -/
def loadBody (selected : Bool) (curBody : Option (List Nat))
    (readResult : Except CblErr (Option (List Nat))) : Bool × Option C4Error × Bool :=
  if selected = false then (false, none, false)
  else if curBody.isSome then (true, none, false)
  else
    match readResult with
    | Except.ok (some _) => (true, none, true)
    | Except.ok none => (false, some ⟨C4ErrorDomain.http, 410⟩, true)
    | Except.error e => (false, some (mapErr e), true)

/-! ## Revision traversal (`c4doc_selectNextLeafRevision` and friends) -/

/-- A revision node as the traversal functions see it: its position in the
depth-first pre-order listing of the tree is its index in a `List Revision`,
so `Revision::next()` is the move to the following index. -/
structure Revision where
  parent : Option Nat
  isLeaf : Bool
  isDeleted : Bool
deriving DecidableEq

/-- The loop condition of `c4doc_selectNextLeafRevision`: a leaf that is
either not deleted or allowed by `includeDeleted`. -/
def goodLeaf (includeDeleted : Bool) (r : Revision) : Bool :=
  r.isLeaf && (includeDeleted || !r.isDeleted)

/-- Index of the first acceptable leaf in a pre-order suffix. -/
def findGoodIdx (includeDeleted : Bool) : List Revision → Option Nat
  | [] => none
  | r :: rs =>
    if goodLeaf includeDeleted r then some 0
    else (findGoodIdx includeDeleted rs).map (· + 1)

/-- `c4doc_selectNextLeafRevision`.  The source reads
`auto rev = idoc->_selectedRev; do { rev = rev->next(); } while (...)`:
with no selected revision the first `rev->next()` dereferences NULL, which
the outer `none` models.  Otherwise the result is the new selection, the
returned value, and the recorded error (`selectRevision(NULL, outError)`
records HTTP 404 and clears the selection when no acceptable leaf follows). -/
def c4doc_selectNextLeafRevision (revs : List Revision) (sel : Option Nat)
    (includeDeleted : Bool) : Option (Option Nat × Bool × Option C4Error) :=
  match sel with
  | none => none
  | some i =>
    match findGoodIdx includeDeleted (revs.drop (i + 1)) with
    | some j => some (some (i + 1 + j), true, none)
    | none => some (none, false, some ⟨C4ErrorDomain.http, 404⟩)

/-- `c4doc_selectNextRevision`: guarded by `if (idoc->_selectedRev)`, so an
empty selection is tolerated; returns whether a revision is selected after
the move. -/
def c4doc_selectNextRevision (revs : List Revision) (sel : Option Nat) :
    Option Nat × Bool :=
  match sel with
  | none => (none, false)
  | some i =>
    let s := if i + 1 < revs.length then some (i + 1) else none
    (s, s.isSome)

/-- `c4doc_selectParentRevision`: guarded by `if (idoc->_selectedRev)`, so an
empty selection is tolerated. -/
def c4doc_selectParentRevision (revs : List Revision) (sel : Option Nat) :
    Option Nat × Bool :=
  match sel with
  | none => (none, false)
  | some i =>
    match revs[i]? with
    | some r => (r.parent, r.parent.isSome)
    | none => (none, false)

/-! ## History insertion (`c4doc_insertRevisionWithHistory`) -/

/-- A revision id after `revidBuffer` parsing: `none` models a malformed id,
otherwise `(generation, digest)`. -/
abbrev RevID := Option (Nat × List Nat)

/-- Adjacent generations strictly decrease along the parsed vector. -/
def chainDesc : List (Nat × List Nat) → Bool
  | a :: b :: rs => decide (b.1 < a.1) && chainDesc (b :: rs)
  | _ => true

/-- Modelled from the spec: the validity test of
`VersionedDocument::insertHistory` (not under `src/`): every revID parses
and any two adjacent entries strictly decrease in generation. -/
def validHistory (l : List RevID) : Bool :=
  l.all Option.isSome && chainDesc (l.filterMap id)

/-- Whether a parsed revision id already exists in the rev-tree (given as
the list of existing revision ids). -/
def inTree (tree : List (Nat × List Nat)) : RevID → Bool
  | some p => decide (p ∈ tree)
  | none => false

/-- Modelled from the spec: the lowest index of a history entry already in
the tree, or the length of the vector when no ancestor is found. -/
def ancestorIdx (tree : List (Nat × List Nat)) : List RevID → Nat
  | [] => 0
  | r :: rs => if inTree tree r then 0 else ancestorIdx tree rs + 1

/-- Modelled from the spec: `VersionedDocument::insertHistory` (the class is
not under `src/`): returns −1 when the history vector is invalid (malformed
revID or non-strictly-decreasing generations), otherwise the common-ancestor
index. -/
def insertHistory (tree : List (Nat × List Nat)) (revIDs : List RevID) : Int :=
  if validHistory revIDs then (ancestorIdx tree revIDs : Int) else -1

/-- `c4doc_insertRevisionWithHistory`: builds the vector `revID` followed by
the history entries, calls `insertHistory`; on a non-negative result updates
metadata and selects the revision with the new id, otherwise records
HTTP 400.  Result: `(returned index, recorded error, new selection;
a `none` selection means the selection was left unchanged)`. -/
def c4doc_insertRevisionWithHistory (tree : List (Nat × List Nat)) (newRev : RevID)
    (history : List RevID) : Int × Option C4Error × Option RevID :=
  let ca := insertHistory tree (newRev :: history)
  if 0 ≤ ca then (ca, none, some newRev)
  else (ca, some ⟨C4ErrorDomain.http, 400⟩, none)

/-! ## Collation-encoded expiry keys

Modelled from the spec: the Collatable codec is not under `src/`.  The spec
describes it as a codec with "explicit tag bytes per type" whose byte
order matches the logical tuple order; a key is modelled as a list of typed
tokens compared first by tag byte, then by content, lexicographically.
Tag values follow the codec's tag enumeration (`kEndSequence = 0`,
`kNumber = 4`, `kString = 5`, `kArray = 6`, `kMap = 7`); what matters below
is only that equal types compare by content and distinct types by tag. -/

/-- One token of a collation-encoded key. -/
inductive CTok where
  | endSeq
  | num (n : Nat)
  | str (s : List Nat)
  | arr
  | map
deriving DecidableEq

/-- The tag byte of a token. -/
def CTok.tag : CTok → Nat
  | CTok.endSeq => 0
  | CTok.num _ => 4
  | CTok.str _ => 5
  | CTok.arr => 6
  | CTok.map => 7

/-- Bytewise-lexicographic order on encoded strings. -/
def strLt : List Nat → List Nat → Bool
  | [], [] => false
  | [], _ :: _ => true
  | _ :: _, [] => false
  | a :: as, b :: bs => decide (a < b) || (decide (a = b) && strLt as bs)

/-- Strict order on single tokens: by content for same-type tokens, by tag
byte otherwise. -/
def tokLt : CTok → CTok → Bool
  | CTok.num m, CTok.num n => decide (m < n)
  | CTok.str s, CTok.str t => strLt s t
  | a, b => decide (a.tag < b.tag)

/-- Strict lexicographic order on encoded keys. -/
def keyLt : List CTok → List CTok → Bool
  | [], [] => false
  | [], _ :: _ => true
  | _ :: _, [] => false
  | a :: as, b :: bs => tokLt a b || (decide (a = b) && keyLt as bs)

/-- Non-strict key order (`inclusiveEnd` range test). -/
def keyLe (a b : List CTok) : Bool :=
  decide (a = b) || keyLt a b

/-- One forward expiry record: timestamp and document id. -/
structure ExpiryRecord where
  ts : Nat
  docID : List Nat
deriving DecidableEq

/-- The encoded forward key of an expiry record, as the reader in
`C4ExpiryEnumerator::next` parses it (`skipTag`; `readInt`; `readString`):
an array holding the timestamp then the docID string. -/
def encFwd (r : ExpiryRecord) : List CTok :=
  [CTok.arr, CTok.num r.ts, CTok.str r.docID, CTok.endSeq]

/-- The range-end key built by `C4ExpiryEnumerator::reset`:
`beginArray; << (double)_endTimestamp; beginMap; endMap; endArray`. -/
def encEnd (t : Nat) : List CTok :=
  [CTok.arr, CTok.num t, CTok.map, CTok.endSeq, CTok.endSeq]

/-- The forward-key shape the specification text asserts for each expiry
record: `[array: timestamp, empty map, docID]`.  Stated from the spec's
words, for comparison against `encFwd`. -/
def specEncFwd (r : ExpiryRecord) : List CTok :=
  [CTok.arr, CTok.num r.ts, CTok.map, CTok.endSeq, CTok.str r.docID, CTok.endSeq]

/-- The docID extraction of `C4ExpiryEnumerator::next`: skip the array tag,
read the number, read the string; any other token shape makes the reader
throw (`none`). -/
def decodeDocID : List CTok → Option (List Nat)
  | CTok.arr :: CTok.num _ :: CTok.str s :: _ => some s
  | _ => none

/-- The docIDs yielded by an `C4ExpiryEnumerator` over a store of forward
records (in store key order), with range end `encEnd T`: repeated
`next()` over the `DocEnumerator` range `[null, encEnd T]`. -/
def expiryYield (store : List ExpiryRecord) (T : Nat) : List (List Nat) :=
  (store.filter (fun r => keyLe (encFwd r) (encEnd T))).filterMap
    (fun r => decodeDocID (encFwd r))

/-- The same enumeration under the spec's asserted record-key shape
`[timestamp, empty map, docID]`. -/
def specExpiryYield (store : List ExpiryRecord) (T : Nat) : List (List Nat) :=
  (store.filter (fun r => keyLe (specEncFwd r) (encEnd T))).filterMap
    (fun r => decodeDocID (specEncFwd r))

/-! ## Expiry enumerator state (`C4ExpiryEnumerator`) -/

/-- The state of a `C4ExpiryEnumerator` relevant to its scan range:
`_endTimestamp` and the end key of the current `DocEnumerator`. -/
structure ExpEnumState where
  endTimestamp : Nat
  rangeEnd : List CTok
deriving DecidableEq

/-- `C4ExpiryEnumerator::reset`: rebuilds the `DocEnumerator` with end key
`encEnd _endTimestamp`.  The body reads no clock. -/
def expEnumReset (e : ExpEnumState) : ExpEnumState :=
  { e with rangeEnd := encEnd e.endTimestamp }

/-- The constructor: `_endTimestamp = time(NULL); reset();` where `now` is
the wall time of the construction call. -/
def expEnumConstruct (now : Nat) : ExpEnumState :=
  expEnumReset { endTimestamp := now, rangeEnd := [] }

/-- A `reset()` call issued at wall time `now`: the body of `reset()` never
reads the clock, so the argument is unused by the source. -/
def expEnumResetAt (_now : Nat) (e : ExpEnumState) : ExpEnumState :=
  expEnumReset e

/-! ## Expiry purge (`c4exp_purgeExpired`) -/

/-- A key in the `expiry` store: a collation-encoded forward key
`(timestamp, docID)` or a raw reverse key holding just the docID bytes. -/
inductive EKey where
  | fwd (ts : Nat) (docID : List Nat)
  | rvs (docID : List Nat)
deriving DecidableEq

/-- Whether the enumerator (after `reset()`, range end `encEnd T`) yields a
given store key. -/
def isExpired (T : Nat) : EKey → Bool
  | EKey.fwd ts id => keyLe (encFwd ⟨ts, id⟩) (encEnd T)
  | EKey.rvs _ => false

/-- The forward keys yielded by the purge loop, in store order. -/
def expiredOf (store : List EKey) (T : Nat) : List EKey :=
  store.filter (isExpired T)

/-- The two deletions the loop body issues for a yielded entry:
`writer.del(e->key())` and `writer.del(e->docID())`. -/
def delTargets : EKey → List EKey
  | EKey.fwd ts id => [EKey.fwd ts id, EKey.rvs id]
  | EKey.rvs _ => []

/-- Every key deleted by a clean run of the purge loop. -/
def purgeDeletions (store : List EKey) (T : Nat) : List EKey :=
  ((expiredOf store T).map delTargets).flatten

/-- `c4exp_purgeExpired`, entered outside any transaction.  The loop issues
two `writer.del` calls per yielded entry; deletions are staged in the
transaction and become visible only at commit.  `failAt = some k` injects a
thrown error at the k-th `del` call: the catch runs and the frame is ended
with `commit = false`, discarding every staged deletion.  Result:
`(returned value, resulting store)`. -/
def purgeExpired (store : List EKey) (T : Nat) (failAt : Option Nat) :
    Bool × List EKey :=
  match failAt with
  | some k =>
    if k < 2 * (expiredOf store T).length then (false, store)
    else (true, store.filter (fun e => !(decide (e ∈ purgeDeletions store T))))
  | none => (true, store.filter (fun e => !(decide (e ∈ purgeDeletions store T))))

/-! ## Shared helper lemmas -/

theorem getElem?_drop_add {α : Type} (l : List α) :
    ∀ (i j : Nat), (l.drop i)[j]? = l[i + j]? := by
  induction l with
  | nil => intro i j; simp
  | cons a as ih =>
    intro i j
    cases i with
    | zero => simp
    | succ i =>
      rw [List.drop_succ_cons, ih i j]
      simp [Nat.succ_add]

theorem keyLe_encFwd_encEnd (r : ExpiryRecord) (T : Nat) :
    keyLe (encFwd r) (encEnd T) = decide (r.ts ≤ T) := by
  rcases Nat.lt_trichotomy r.ts T with h | h | h
  · simp [keyLe, keyLt, tokLt, encFwd, encEnd, CTok.tag, h, Nat.le_of_lt h]
  · simp [keyLe, keyLt, tokLt, encFwd, encEnd, CTok.tag, h]
  · simp [keyLe, keyLt, tokLt, encFwd, encEnd, CTok.tag,
      Nat.lt_asymm h, Nat.ne_of_gt h, Nat.not_le_of_lt h]

theorem keyLt_encFwd_ts_le (a b : ExpiryRecord)
    (h : keyLt (encFwd a) (encFwd b) = true) : a.ts ≤ b.ts := by
  by_cases hlt : a.ts < b.ts
  · exact Nat.le_of_lt hlt
  · by_cases heq : a.ts = b.ts
    · exact Nat.le_of_eq heq
    · exfalso
      simp [keyLt, tokLt, encFwd, CTok.tag, hlt, heq] at h

theorem decode_encFwd (r : ExpiryRecord) :
    decodeDocID (encFwd r) = some r.docID := rfl

theorem expiry_filterMap (l : List ExpiryRecord) :
    l.filterMap (fun r => decodeDocID (encFwd r)) = l.map ExpiryRecord.docID := by
  induction l with
  | nil => rfl
  | cons a as ih =>
    simp only [decode_encFwd] at ih
    simp [List.filterMap_cons, decode_encFwd, ih]

theorem findGoodIdx_some (inc : Bool) (l : List Revision) (j : Nat)
    (h : findGoodIdx inc l = some j) :
    ∃ r, l[j]? = some r ∧ goodLeaf inc r = true ∧
      ∀ k, k < j → ∀ s, l[k]? = some s → goodLeaf inc s = false := by
  induction l generalizing j with
  | nil => simp [findGoodIdx] at h
  | cons a as ih =>
    simp only [findGoodIdx] at h
    cases hg : goodLeaf inc a with
    | true =>
      rw [hg, if_pos rfl] at h
      have hj : j = 0 := by simp at h; omega
      subst hj
      refine ⟨a, by simp, hg, ?_⟩
      intro k hk
      exact absurd hk (Nat.not_lt_zero k)
    | false =>
      rw [hg] at h
      simp only [Bool.false_eq_true, if_false] at h
      cases h2 : findGoodIdx inc as with
      | none => rw [h2] at h; simp at h
      | some j2 =>
        rw [h2] at h
        simp only [Option.map_some'] at h
        have hj : j = j2 + 1 := by simp at h; omega
        subst hj
        obtain ⟨r, hr, hgr, hall⟩ := ih j2 h2
        refine ⟨r, by simpa using hr, hgr, ?_⟩
        intro k hk s hs
        cases k with
        | zero =>
          simp at hs
          rw [← hs]
          exact hg
        | succ k =>
          simp at hs
          exact hall k (by omega) s hs

theorem findGoodIdx_none_iff (inc : Bool) (l : List Revision) :
    findGoodIdx inc l = none ↔
      ∀ (k : Nat) (s : Revision), l[k]? = some s → goodLeaf inc s = false := by
  induction l with
  | nil => simp [findGoodIdx]
  | cons a as ih =>
    simp only [findGoodIdx]
    cases hg : goodLeaf inc a with
    | true =>
      simp only [if_pos rfl]
      constructor
      · intro h; cases h
      · intro h
        have h0 := h 0 a (by simp)
        rw [hg] at h0
        cases h0
    | false =>
      simp only [Bool.false_eq_true, if_false, Option.map_eq_none', ih]
      constructor
      · intro h k s hs
        cases k with
        | zero =>
          simp at hs
          rw [← hs]
          exact hg
        | succ k =>
          simp at hs
          exact h k s hs
      · intro h k s hs
        exact h (k + 1) s (by simpa using hs)

theorem ancestorIdx_le (tree : List (Nat × List Nat)) (l : List RevID) :
    ancestorIdx tree l ≤ l.length := by
  induction l with
  | nil => simp [ancestorIdx]
  | cons r rs ih =>
    cases hb : inTree tree r with
    | true => simp [ancestorIdx, hb]
    | false =>
      simp [ancestorIdx, hb]
      omega

theorem ancestorIdx_before (tree : List (Nat × List Nat)) (l : List RevID) :
    ∀ j, j < ancestorIdx tree l → ∀ r, l[j]? = some r → inTree tree r = false := by
  induction l with
  | nil => intro j hj; simp [ancestorIdx] at hj
  | cons a as ih =>
    intro j hj r hr
    cases hb : inTree tree a with
    | true => simp [ancestorIdx, hb] at hj
    | false =>
      simp only [ancestorIdx, hb, Bool.false_eq_true, if_false] at hj
      cases j with
      | zero =>
        simp at hr
        rw [← hr]
        exact hb
      | succ j =>
        simp at hr
        exact ih j (by omega) r hr

theorem ancestorIdx_mem (tree : List (Nat × List Nat)) (l : List RevID)
    (h : ancestorIdx tree l < l.length) :
    ∃ r, l[ancestorIdx tree l]? = some r ∧ inTree tree r = true := by
  induction l with
  | nil => simp at h
  | cons a as ih =>
    cases hb : inTree tree a with
    | true => exact ⟨a, by simp [ancestorIdx, hb], hb⟩
    | false =>
      simp only [ancestorIdx, hb, Bool.false_eq_true, if_false, List.length_cons] at h
      obtain ⟨r, hr, htr⟩ := ih (by omega)
      refine ⟨r, ?_, htr⟩
      simp only [ancestorIdx, hb, Bool.false_eq_true, if_false]
      simpa using hr

/-! ## Claim theorems -/

/-- C1: the claim says a nested `endTransaction(commit=false)` marks the
outer frame to abort, so that when depth returns to zero the Transaction is
aborted.  The source keeps no such mark: a nested `end(false)` only
decrements `_transactionLevel`, and the outermost `end(true)` commits.  The
trace `begin; begin; end(false); end(true)` therefore ends with the single
Transaction object committed, not aborted, exhibiting the divergence. -/
theorem c4db_nested_abort_is_ignored :
    runTxnOps { level := 0, txnAlive := false }
        [TxnOp.beginT, TxnOp.beginT, TxnOp.endT false, TxnOp.endT true]
      = some ({ level := 0, txnAlive := false }, [TxnEvent.committed]) ∧
    runTxnOps { level := 0, txnAlive := false } [TxnOp.beginT, TxnOp.beginT]
      = some ({ level := 2, txnAlive := true }, []) := by
  constructor <;> rfl

/-- C2 counterexample: the claim says `reset()` rebuilds the enumerator
against a fresh `now` snapshot.  An enumerator constructed at time 10 and
reset at time 20 scans up to `encEnd 10`, the construction-time snapshot,
which differs from `encEnd 20`. -/
theorem c4exp_reset_uses_construction_time :
    (expEnumResetAt 20 (expEnumConstruct 10)).rangeEnd = encEnd 10 ∧
    encEnd 10 ≠ encEnd 20 := by
  constructor
  · rfl
  · decide

/-- C2 (amended): `reset()` rebuilds the enumerator against the `now`
snapshot captured by the constructor (`_endTimestamp`); the end of the
scanned range after a `reset()` call corresponds to the construction time,
whatever the wall time of the `reset()` call. -/
theorem c4exp_reset_range_end_eq_construction (t0 t1 : Nat) :
    (expEnumResetAt t1 (expEnumConstruct t0)).rangeEnd = encEnd t0 ∧
    (expEnumResetAt t1 (expEnumConstruct t0)).endTimestamp = t0 := by
  constructor <;> rfl

/-- C3: the claim says a `c4raw_put` that applies its write and commits
returns true.  The source has no `return true` on the success path: after
`endTransaction()` commits, control falls through to `return false`.  A
fully successful set call applies the record and commits the transaction,
yet returns false. -/
theorem c4raw_put_false_despite_success :
    c4raw_put [] [1] (some [2]) (some [3]) false
      = (false, [([1], [2], [3])], some TxnEvent.committed) ∧
    c4raw_put [([1], [2], [3])] [1] none none false
      = (false, [], some TxnEvent.committed) := by
  constructor <;> rfl

/-- C9: ending a transaction at nesting depth zero fails the
`assert(_transactionLevel > 0)` in `endTransaction`, and destroying a
`c4Database` while a transaction is open fails the
`assert(_transactionLevel == 0)` in the destructor; both abort the process
(modelled as `none`) instead of returning a structured error. -/
theorem txn_precondition_asserts (s t : TxnState) (b : Bool)
    (hs : s.level = 0) (ht : 0 < t.level) :
    endTransaction s b = none ∧ c4DatabaseDestroy t = none := by
  constructor
  · simp [endTransaction, hs]
  · simp [c4DatabaseDestroy, Nat.ne_of_gt ht, Nat.pos_iff_ne_zero.mp ht]

theorem txn_precondition_asserts_witness :
    endTransaction { level := 0, txnAlive := false } true = none ∧
    c4DatabaseDestroy { level := 1, txnAlive := true } = none :=
  txn_precondition_asserts { level := 0, txnAlive := false }
    { level := 1, txnAlive := true } true rfl (by decide)

/-- C10: `c4db_open` configures the engine bit-exactly: buffer cache
8 MiB = 8388608 bytes, WAL threshold 1024 records, WAL flush before commit,
sequence-tree optimization, document-body compression, auto-compactor probe
interval 300 seconds, and open flag RDONLY when read-only else CREATE; and
when the engine open fails, it returns NULL with the caught error recorded
into the error slot. -/
theorem c4db_open_contract (readOnly : Bool)
    (engineOpen : DbConfig → Except CblErr Unit) (e : CblErr)
    (hfail : engineOpen (c4db_open_config readOnly) = Except.error e) :
    (c4db_open_config readOnly).buffercacheSize = 8388608 ∧
    (c4db_open_config readOnly).walThreshold = 1024 ∧
    (c4db_open_config readOnly).walFlushBeforeCommit = true ∧
    (c4db_open_config readOnly).seqtreeOpt = true ∧
    (c4db_open_config readOnly).compressDocumentBody = true ∧
    (c4db_open_config readOnly).compactorSleepDuration = 300 ∧
    (c4db_open_config readOnly).flags
      = (if readOnly then FdbOpenFlag.rdonly else FdbOpenFlag.create) ∧
    c4db_open readOnly engineOpen = (none, some (mapErr e)) := by
  refine ⟨rfl, rfl, rfl, rfl, rfl, rfl, rfl, ?_⟩
  simp [c4db_open, hfail]

theorem c4db_open_contract_witness :
    (fun _ : DbConfig => (Except.error CblErr.unknown : Except CblErr Unit))
        (c4db_open_config true) = Except.error CblErr.unknown ∧
    c4db_open true (fun _ => Except.error CblErr.unknown)
      = (none, some ⟨C4ErrorDomain.c4, 2⟩) :=
  ⟨rfl, (c4db_open_contract true (fun _ => Except.error CblErr.unknown)
      CblErr.unknown rfl).2.2.2.2.2.2.2⟩

/-- C7: when a revision is selected, its body is not inlined or loaded, and
`readBody()` returns an absent body without throwing (compacted away),
`loadBody` returns false recording HTTP 410 — a domain distinct from the
engine NotFound domain — and the store was read; when the body is already
inlined or loaded, it returns true without touching the store. -/
theorem loadBody_gone_contract (cb : Option (List Nat))
    (rr : Except CblErr (Option (List Nat))) (hcb : cb.isSome = true) :
    loadBody true none (Except.ok none)
      = (false, some ⟨C4ErrorDomain.http, 410⟩, true) ∧
    (∀ code : Int, (loadBody true none (Except.ok none)).2.1
      ≠ some ⟨C4ErrorDomain.forestdb, code⟩) ∧
    loadBody true cb rr = (true, none, false) := by
  refine ⟨rfl, ?_, ?_⟩
  · intro code h
    simp [loadBody] at h
  · simp [loadBody, hcb]

theorem loadBody_gone_contract_witness :
    (some [7] : Option (List Nat)).isSome = true ∧
    loadBody true (some [7]) (Except.ok none) = (true, none, false) :=
  ⟨rfl, (loadBody_gone_contract (some [7]) (Except.ok none) rfl).2.2⟩

/-- C6: `c4doc_insertRevisionWithHistory` returns −1 and records HTTP 400
whenever the vector formed by the new revID followed by the history entries
is invalid (a malformed revID, or adjacent entries violating strict
generation decrease); for every valid call it returns the common-ancestor
index into that vector — non-negative, at most the vector length, the least
index whose entry already exists in the tree (every earlier entry absent,
the entry at the index present when the index is within the vector) — and
leaves the revision with the new revID selected with no error recorded. -/
theorem c4doc_insertRevisionWithHistory_contract (tree : List (Nat × List Nat))
    (newRev : RevID) (history : List RevID) :
    (validHistory (newRev :: history) = false →
      c4doc_insertRevisionWithHistory tree newRev history
        = (-1, some ⟨C4ErrorDomain.http, 400⟩, none)) ∧
    (validHistory (newRev :: history) = true →
      c4doc_insertRevisionWithHistory tree newRev history
          = ((ancestorIdx tree (newRev :: history) : Int), none, some newRev) ∧
        0 ≤ (c4doc_insertRevisionWithHistory tree newRev history).1 ∧
        ancestorIdx tree (newRev :: history) ≤ (newRev :: history).length ∧
        (∀ j, j < ancestorIdx tree (newRev :: history) →
          ∀ r, (newRev :: history)[j]? = some r → inTree tree r = false) ∧
        (ancestorIdx tree (newRev :: history) < (newRev :: history).length →
          ∃ r, (newRev :: history)[ancestorIdx tree (newRev :: history)]? = some r ∧
            inTree tree r = true)) := by
  constructor
  · intro hv
    simp [c4doc_insertRevisionWithHistory, insertHistory, hv]
  · intro hv
    have hres : c4doc_insertRevisionWithHistory tree newRev history
        = ((ancestorIdx tree (newRev :: history) : Int), none, some newRev) := by
      simp [c4doc_insertRevisionWithHistory, insertHistory, hv, Int.natCast_nonneg]
    refine ⟨hres, ?_, ancestorIdx_le tree _,
      ancestorIdx_before tree _, ancestorIdx_mem tree _⟩
    rw [hres]
    exact Int.natCast_nonneg _

theorem c4doc_insertRevisionWithHistory_contract_witness :
    validHistory (some (3, [30]) :: [some (2, [20]), some (1, [10])]) = true ∧
    c4doc_insertRevisionWithHistory [(1, [10])] (some (3, [30]))
        [some (2, [20]), some (1, [10])]
      = ((2 : Int), none, some (some (3, [30]))) ∧
    validHistory (some (1, [1]) :: [some (2, [2])]) = false ∧
    c4doc_insertRevisionWithHistory [] (some (1, [1])) [some (2, [2])]
      = (-1, some ⟨C4ErrorDomain.http, 400⟩, none) :=
  ⟨by decide,
   (((c4doc_insertRevisionWithHistory_contract [(1, [10])] (some (3, [30]))
      [some (2, [20]), some (1, [10])]).2 (by decide)).1).trans (by decide),
   by decide,
   (c4doc_insertRevisionWithHistory_contract [] (some (1, [1]))
      [some (2, [2])]).1 (by decide)⟩

/-- C8: `c4doc_selectNextLeafRevision` requires a selected revision: with an
empty selection its first `rev->next()` dereferences NULL (the outer `none`),
whereas `c4doc_selectNextRevision` and `c4doc_selectParentRevision` tolerate
an empty selection and return false; under the precondition it selects the
first pre-order successor that is an acceptable leaf (a leaf, and not
deleted unless `includeDeleted`), every strictly intermediate revision being
unacceptable, and clears the selection recording HTTP 404 exactly when no
acceptable leaf follows. -/
theorem c4doc_selectNextLeafRevision_contract (revs : List Revision) (i : Nat)
    (inc : Bool) :
    c4doc_selectNextLeafRevision revs none inc = none ∧
    c4doc_selectNextRevision revs none = (none, false) ∧
    c4doc_selectParentRevision revs none = (none, false) ∧
    (∀ (j : Nat) (b : Bool) (e : Option C4Error),
      c4doc_selectNextLeafRevision revs (some i) inc = some (some j, b, e) →
        b = true ∧ e = none ∧ i < j ∧
        (∃ r, revs[j]? = some r ∧ goodLeaf inc r = true) ∧
        (∀ (k : Nat), i < k → k < j → ∀ (s : Revision), revs[k]? = some s →
          goodLeaf inc s = false)) ∧
    (c4doc_selectNextLeafRevision revs (some i) inc
        = some (none, false, some ⟨C4ErrorDomain.http, 404⟩) ↔
      ∀ (k : Nat), i < k → ∀ (s : Revision), revs[k]? = some s →
        goodLeaf inc s = false) := by
  refine ⟨rfl, rfl, rfl, ?_, ?_⟩
  · intro j b e h
    simp only [c4doc_selectNextLeafRevision] at h
    cases h2 : findGoodIdx inc (revs.drop (i + 1)) with
    | none => rw [h2] at h; simp at h
    | some j2 =>
      rw [h2] at h
      simp only [Option.some.injEq, Prod.mk.injEq] at h
      obtain ⟨hj, hb, he⟩ := h
      obtain ⟨r, hr, hgr, hall⟩ := findGoodIdx_some inc _ j2 h2
      rw [getElem?_drop_add] at hr
      refine ⟨hb.symm, he.symm, ?_, ⟨r, ?_, hgr⟩, ?_⟩
      · omega
      · rw [← hj]
        exact hr
      · intro k hk1 hk2 s hs
        have hks : (revs.drop (i + 1))[k - (i + 1)]? = some s := by
          rw [getElem?_drop_add]
          have : i + 1 + (k - (i + 1)) = k := by omega
          rw [this]
          exact hs
        exact hall (k - (i + 1)) (by omega) s hks
  · constructor
    · intro h k hk s hs
      simp only [c4doc_selectNextLeafRevision] at h
      cases h2 : findGoodIdx inc (revs.drop (i + 1)) with
      | some j2 => rw [h2] at h; simp at h
      | none =>
        have hall := (findGoodIdx_none_iff inc _).mp h2
        have hks : (revs.drop (i + 1))[k - (i + 1)]? = some s := by
          rw [getElem?_drop_add]
          have : i + 1 + (k - (i + 1)) = k := by omega
          rw [this]
          exact hs
        exact hall (k - (i + 1)) s hks
    · intro h
      have hnone : findGoodIdx inc (revs.drop (i + 1)) = none := by
        rw [findGoodIdx_none_iff]
        intro k s hks
        rw [getElem?_drop_add] at hks
        exact h (i + 1 + k) (by omega) s hks
      simp [c4doc_selectNextLeafRevision, hnone]

theorem c4doc_selectNextLeafRevision_contract_witness :
    c4doc_selectNextLeafRevision
        [⟨none, false, false⟩, ⟨some 0, true, false⟩] none false = none ∧
    c4doc_selectNextLeafRevision
        [⟨none, false, false⟩, ⟨some 0, true, false⟩] (some 0) false
      = some (some 1, true, none) ∧
    (0 : Nat) < 1 :=
  ⟨(c4doc_selectNextLeafRevision_contract
      [⟨none, false, false⟩, ⟨some 0, true, false⟩] 0 false).1,
   by decide,
   ((c4doc_selectNextLeafRevision_contract
      [⟨none, false, false⟩, ⟨some 0, true, false⟩] 0 false).2.2.2.1
      1 true none (by decide)).2.2.1⟩

/-- C5 counterexample: under the record-key shape the claim states,
`[timestamp, empty map, docID]`, the record with timestamp 5 and docID
`[97]` satisfies ts ≤ T for T = 5 yet sorts beyond the range end
`encEnd 5` (the end key closes its array where the record key continues
with a map token), so the scan misses it; moreover the reader parse
`skipTag; readInt; readString` performed by `C4ExpiryEnumerator::next`
cannot extract a docID from a key of that shape. -/
theorem spec_expiry_key_shape_misses_boundary :
    (⟨5, [97]⟩ : ExpiryRecord).ts ≤ 5 ∧
    specExpiryYield [⟨5, [97]⟩] 5 = [] ∧
    keyLe (specEncFwd ⟨5, [97]⟩) (encEnd 5) = false ∧
    decodeDocID (specEncFwd ⟨5, [97]⟩) = none := by
  decide

/-- C5 (amended): with the record keys the source parses —
collation-encoded `[timestamp, docID]`, the empty map appearing only in the
range-end key `encEnd T` as an upper-bound sentinel that sorts after every
string — an enumerator whose range ends at `encEnd T` over a store sorted
by encoded key yields exactly the docIDs of records with timestamp ≤ T
(none with timestamp > T yielded, none with timestamp ≤ T missed), in
non-decreasing timestamp order. -/
theorem expiryYield_exact_and_sorted (store : List ExpiryRecord) (T : Nat)
    (hs : List.Pairwise (fun a b => keyLt (encFwd a) (encFwd b) = true) store) :
    expiryYield store T
      = (store.filter (fun r => decide (r.ts ≤ T))).map ExpiryRecord.docID ∧
    List.Pairwise (fun a b : Nat => a ≤ b)
      ((store.filter (fun r => decide (r.ts ≤ T))).map ExpiryRecord.ts) := by
  constructor
  · unfold expiryYield
    rw [expiry_filterMap]
    congr 1
    exact List.filter_congr (fun r _ => keyLe_encFwd_encEnd r T)
  · rw [List.pairwise_map]
    have h1 : List.Pairwise (fun a b => keyLt (encFwd a) (encFwd b) = true)
        (store.filter (fun r => decide (r.ts ≤ T))) :=
      List.Pairwise.sublist (List.filter_sublist store) hs
    exact h1.imp (fun h => keyLt_encFwd_ts_le _ _ h)

theorem expiryYield_exact_and_sorted_witness :
    List.Pairwise (fun a b => keyLt (encFwd a) (encFwd b) = true)
      [(⟨1, [97]⟩ : ExpiryRecord), ⟨3, [98]⟩, ⟨7, [99]⟩] ∧
    expiryYield [⟨1, [97]⟩, ⟨3, [98]⟩, ⟨7, [99]⟩] 5
      = ([[97], [98]] : List (List Nat)) :=
  ⟨by decide,
   (expiryYield_exact_and_sorted [⟨1, [97]⟩, ⟨3, [98]⟩, ⟨7, [99]⟩] 5
      (by decide)).1.trans (by decide)⟩

/-- C4: for each entry yielded by the enumerator, `c4exp_purgeExpired`
deletes both the forward expiry-index key and the reverse entry keyed by
the docID in the same expiry store; keys not targeted by the loop survive;
the enclosing transaction commits when the loop completes cleanly (return
true) and aborts on a failure at any deletion step (return false), leaving
the store exactly as before — no partial deletion becomes visible. -/
theorem c4exp_purgeExpired_atomic (store : List EKey) (T k : Nat)
    (hk : k < 2 * (expiredOf store T).length) :
    purgeExpired store T (some k) = (false, store) ∧
    (purgeExpired store T none).1 = true ∧
    (∀ (ts : Nat) (id : List Nat), EKey.fwd ts id ∈ expiredOf store T →
      EKey.fwd ts id ∉ (purgeExpired store T none).2 ∧
      EKey.rvs id ∉ (purgeExpired store T none).2) ∧
    (∀ e ∈ store, e ∉ purgeDeletions store T → e ∈ (purgeExpired store T none).2) := by
  refine ⟨?_, rfl, ?_, ?_⟩
  · simp [purgeExpired, hk]
  · intro ts id hmem
    have hfwd : EKey.fwd ts id ∈ purgeDeletions store T := by
      unfold purgeDeletions
      rw [List.mem_flatten]
      exact ⟨delTargets (EKey.fwd ts id), List.mem_map_of_mem _ hmem,
        by simp [delTargets]⟩
    have hrvs : EKey.rvs id ∈ purgeDeletions store T := by
      unfold purgeDeletions
      rw [List.mem_flatten]
      exact ⟨delTargets (EKey.fwd ts id), List.mem_map_of_mem _ hmem,
        by simp [delTargets]⟩
    constructor
    · intro hin
      simp only [purgeExpired, List.mem_filter] at hin
      simp [hfwd] at hin
    · intro hin
      simp only [purgeExpired, List.mem_filter] at hin
      simp [hrvs] at hin
  · intro e he hnd
    simp only [purgeExpired, List.mem_filter]
    exact ⟨he, by simp [hnd]⟩

theorem c4exp_purgeExpired_atomic_witness :
    (0 : Nat) < 2 * (expiredOf [EKey.fwd 1 [97], EKey.rvs [97], EKey.fwd 9 [98]] 5).length ∧
    purgeExpired [EKey.fwd 1 [97], EKey.rvs [97], EKey.fwd 9 [98]] 5 (some 0)
      = (false, [EKey.fwd 1 [97], EKey.rvs [97], EKey.fwd 9 [98]]) ∧
    EKey.fwd 1 [97]
      ∉ (purgeExpired [EKey.fwd 1 [97], EKey.rvs [97], EKey.fwd 9 [98]] 5 none).2 ∧
    EKey.rvs [97]
      ∉ (purgeExpired [EKey.fwd 1 [97], EKey.rvs [97], EKey.fwd 9 [98]] 5 none).2 :=
  ⟨by decide,
   (c4exp_purgeExpired_atomic [EKey.fwd 1 [97], EKey.rvs [97], EKey.fwd 9 [98]]
      5 0 (by decide)).1,
   ((c4exp_purgeExpired_atomic [EKey.fwd 1 [97], EKey.rvs [97], EKey.fwd 9 [98]]
      5 0 (by decide)).2.2.1 1 [97] (by decide)).1,
   ((c4exp_purgeExpired_atomic [EKey.fwd 1 [97], EKey.rvs [97], EKey.fwd 9 [98]]
      5 0 (by decide)).2.2.1 1 [97] (by decide)).2⟩
